import Mathlib

set_option maxRecDepth 2000

/-!
Verification of the ACL UE4 plugin's database pipeline.

This file gives a shallow embedding of the core logic of the plugin:

* the cooked offset-table construction of
  `UAnimationCompressionLibraryDatabase::PreSave`
  (`AnimationCompressionLibraryDatabase.cpp`): packing of
  `(SequenceNameHash << 32) | offset` entries, 16-byte-aligned layout of the
  consolidated buffer, and the sort of the mapping array;
* the binary search of `FACLDatabaseCompressedAnimData::Bind`
  (UE4 `Algo::BinarySearchBy` over the sorted mapping array);
* the cooked decompression control flow of
  `UAnimBoneCompressionCodec_ACLDatabase::DecompressPose` / `DecompressBone`;
* the streamer state machine of `UE4DatabaseStreamer.h`
  (`stream_in`, `stream_out`, `WaitForStreamingToComplete`, `get_bulk_data`);
* `UAnimationCompressionLibraryDatabase::BeginDestroy`,
  `StreamDatabaseIn` and `StreamDatabaseOut`.

Machine integers (`uint32`/`uint64`) are modelled as `Nat` with explicit
reduction modulo `2 ^ 32` where the source stores into a 32-bit variable.
Fatal assertions (`check`/`checkf`) are modelled by an `Option` result where
`none` is the fatal outcome.
-/

namespace ACLPluginProof

/-- Number of values of a 32-bit unsigned integer. `uint32` arithmetic of the
source is modelled as `Nat` arithmetic reduced modulo `U32`. -/
def U32 : Nat := 4294967296

/-- Embedding of `acl::align_to(value, 16)` applied to a `uint32` value:
`(value + 15) & ~15` computed in 32-bit arithmetic, which for the power-of-two
alignment 16 equals clearing the low 4 bits of `(value + 15) mod 2^32`. -/
def alignTo16u32 (x : Nat) : Nat := (x + 15) % U32 / 16 * 16

/-- Embedding of the loop of UE4 `Algo::LowerBoundBy` (`Algo/BinarySearch.h`,
`AlgoImpl::LowerBoundInternal`) specialised to the projection-based search
used by `FACLDatabaseCompressedAnimData::Bind`: `Start` and `Size` delimit the
subrange still to check; each step halves `Size`, moving `Start` past the
probed element when its projection sorts strictly before the searched value.
Out-of-range accesses (which the loop never performs when `start + size` is
within the list) are given the default value `0` by `List.getD`. -/
def lowerBoundLoop (proj : Nat → Nat) (l : List Nat) (v : Nat) (start size : Nat) : Nat :=
  if hsz : size = 0 then start
  else if proj (l.getD (start + size / 2) 0) < v then
    lowerBoundLoop proj l v (start + size / 2 + size % 2) (size / 2)
  else
    lowerBoundLoop proj l v start (size / 2)
termination_by size
decreasing_by
  all_goals omega

/-- Embedding of UE4 `Algo::BinarySearchBy`: run the lower-bound loop over the
whole list, then return the found index when the probed element is not sorted
strictly after the searched value. The source returns `INDEX_NONE` (-1) when
nothing matches; that outcome is modelled by `none`. -/
def binarySearchBy (proj : Nat → Nat) (l : List Nat) (v : Nat) : Option Nat :=
  let checkIndex := lowerBoundLoop proj l v 0 l.length
  if checkIndex < l.length then
    if v < proj (l.getD checkIndex 0) then none else some checkIndex
  else none

/-- Sortedness (non-strict, ascending) of a list with respect to a projection;
the mapping array sorted as 64-bit values is sorted this way for the
hash-extracting projection because the hash lives in the top 32 bits. -/
def SortedByProj (proj : Nat → Nat) (l : List Nat) : Prop :=
  l.Pairwise (fun a b => proj a ≤ proj b)

theorem sortedByProj_mono {proj : Nat → Nat} {l : List Nat}
    (hs : SortedByProj proj l) {i j : Nat} (hij : i ≤ j) (hj : j < l.length) :
    proj (l.getD i 0) ≤ proj (l.getD j 0) := by
  rcases Nat.eq_or_lt_of_le hij with rfl | hlt
  · exact Nat.le_refl _
  · have hi : i < l.length := Nat.lt_trans hlt hj
    rw [List.getD_eq_getElem l 0 hi, List.getD_eq_getElem l 0 hj]
    exact List.pairwise_iff_getElem.mp hs i j hi hj hlt

/-- Invariant of the lower-bound loop: starting from a window `[start, start
+ size)` whose left context is strictly below `v` and whose right context is
at or above `v`, the loop returns the first position at or above `v`. -/
theorem lowerBoundLoop_invariant (proj : Nat → Nat) (l : List Nat) (v : Nat)
    (hs : SortedByProj proj l) :
    ∀ size start, start + size ≤ l.length →
      (∀ i, i < start → proj (l.getD i 0) < v) →
      (∀ i, start + size ≤ i → i < l.length → v ≤ proj (l.getD i 0)) →
      start ≤ lowerBoundLoop proj l v start size ∧
      lowerBoundLoop proj l v start size ≤ start + size ∧
      (∀ i, i < lowerBoundLoop proj l v start size → proj (l.getD i 0) < v) ∧
      (∀ i, lowerBoundLoop proj l v start size ≤ i → i < l.length →
        v ≤ proj (l.getD i 0)) := by
  intro size
  induction size using Nat.strong_induction_on with
  | _ size ih =>
    intro start hbound hlo hhi
    by_cases hsz : size = 0
    · subst hsz
      rw [lowerBoundLoop, dif_pos rfl]
      refine ⟨Nat.le_refl _, Nat.le_refl _, hlo, ?_⟩
      intro i hi hilen
      exact hhi i (by omega) hilen
    · rw [lowerBoundLoop, dif_neg hsz]
      have hhalf : size / 2 < size := by omega
      have hchk : start + size / 2 < l.length := by omega
      by_cases hcmp : proj (l.getD (start + size / 2) 0) < v
      · rw [if_pos hcmp]
        have hrec := ih (size / 2) hhalf (start + size / 2 + size % 2)
          (by omega)
          (by
            intro i hi
            by_cases his : i < start
            · exact hlo i his
            · have hile : i ≤ start + size / 2 := by omega
              exact Nat.lt_of_le_of_lt
                (sortedByProj_mono hs hile hchk) hcmp)
          (by
            intro i hi hilen
            exact hhi i (by omega) hilen)
        refine ⟨?_, ?_, hrec.2.2.1, hrec.2.2.2⟩
        · omega
        · omega
      · rw [if_neg hcmp]
        have hvle : v ≤ proj (l.getD (start + size / 2) 0) := Nat.le_of_not_lt hcmp
        have hrec := ih (size / 2) hhalf start
          (by omega)
          hlo
          (by
            intro i hi hilen
            exact Nat.le_trans hvle (sortedByProj_mono hs (by omega) hilen))
        refine ⟨hrec.1, by omega, hrec.2.2.1, hrec.2.2.2⟩

/-- Specialisation of the loop invariant to the whole list. -/
theorem lowerBoundLoop_spec (proj : Nat → Nat) (l : List Nat) (v : Nat)
    (hs : SortedByProj proj l) :
    lowerBoundLoop proj l v 0 l.length ≤ l.length ∧
    (∀ i, i < lowerBoundLoop proj l v 0 l.length → proj (l.getD i 0) < v) ∧
    (∀ i, lowerBoundLoop proj l v 0 l.length ≤ i → i < l.length →
      v ≤ proj (l.getD i 0)) := by
  have h := lowerBoundLoop_invariant proj l v hs l.length 0
    (by omega)
    (by intro i hi; omega)
    (by intro i hi hilen; omega)
  exact ⟨by omega, h.2.2.1, h.2.2.2⟩

/-- Binary search finds a matching index whenever the searched projection
value occurs in a sorted list. -/
theorem binarySearchBy_present {proj : Nat → Nat} {l : List Nat} {v : Nat}
    (hs : SortedByProj proj l) {j : Nat} (hj : j < l.length)
    (hv : proj (l.getD j 0) = v) :
    ∃ i, binarySearchBy proj l v = some i ∧ i < l.length ∧
      proj (l.getD i 0) = v := by
  obtain ⟨hr1, hlo, hhi⟩ := lowerBoundLoop_spec proj l v hs
  set r := lowerBoundLoop proj l v 0 l.length with hr
  have hrj : r ≤ j := by
    by_contra hcon
    have := hlo j (by omega)
    omega
  have hrlen : r < l.length := Nat.lt_of_le_of_lt hrj hj
  have h1 : v ≤ proj (l.getD r 0) := hhi r (Nat.le_refl r) hrlen
  have h2 : proj (l.getD r 0) ≤ proj (l.getD j 0) := sortedByProj_mono hs hrj hj
  have heq : proj (l.getD r 0) = v := by omega
  refine ⟨r, ?_, hrlen, heq⟩
  simp only [binarySearchBy, ← hr]
  rw [if_pos hrlen, if_neg (by omega)]

/-- Binary search returns `none` (the model of `INDEX_NONE`) whenever the
searched projection value occurs nowhere in a sorted list. -/
theorem binarySearchBy_absent {proj : Nat → Nat} {l : List Nat} {v : Nat}
    (hs : SortedByProj proj l) (habs : ∀ x ∈ l, proj x ≠ v) :
    binarySearchBy proj l v = none := by
  obtain ⟨hr1, hlo, hhi⟩ := lowerBoundLoop_spec proj l v hs
  set r := lowerBoundLoop proj l v 0 l.length with hr
  simp only [binarySearchBy, ← hr]
  by_cases hrlen : r < l.length
  · have h1 : v ≤ proj (l.getD r 0) := hhi r (Nat.le_refl r) hrlen
    have hmem : l.getD r 0 ∈ l := by
      rw [List.getD_eq_getElem l 0 hrlen]
      exact List.getElem_mem hrlen
    have hne : proj (l.getD r 0) ≠ v := habs _ hmem
    rw [if_pos hrlen, if_pos (by omega)]
  · rw [if_neg hrlen]

/-- Binary search over the empty mapping array always fails. -/
theorem binarySearchBy_nil (proj : Nat → Nat) (v : Nat) :
    binarySearchBy proj [] v = none := by
  have hs : SortedByProj proj [] := List.Pairwise.nil
  exact binarySearchBy_absent hs (by intro x hx; cases hx)

/-- Input of the cooked mapping construction: one animation sequence with its
`SequenceNameHash` (a `uint32`) and the size in bytes of its
database-optimised compressed clip (`compressed_tracks::get_size()`). -/
structure SeqEntry where
  hash : Nat
  size : Nat
deriving DecidableEq

/-- Embedding of `(uint64(AnimData.SequenceNameHash) << 32) |
uint64(CompressedSequenceOffset)` from `PreSave`: both operands are `uint32`
values, so the bitwise-or of the disjoint fields is exact addition. -/
def packMapping (hash offset : Nat) : Nat := hash % U32 * U32 + offset % U32

/-- Embedding of the projection `uint32(InValue >> 32)` used by `Bind` to
search the mapping array by sequence name hash. -/
def mappingHash (v : Nat) : Nat := v / U32 % U32

/-- Embedding of the offset-assignment loop of `PreSave`: starting from the
running `CompressedSequenceOffset` (a `uint32`), each clip is aligned to 16
bytes, its (post-alignment) offset recorded, and the unaligned size added.
Returns the recorded offsets and the final unaligned offset, which `PreSave`
uses as the total `CompressedBytes` size. -/
def presaveLayout (off : Nat) : List Nat → List Nat × Nat
  | [] => ([], off)
  | s :: rest =>
      let a := alignTo16u32 off
      let r := presaveLayout ((a + s) % U32) rest
      (a :: r.1, r.2)

/-- Clip offsets recorded by `PreSave`; the running offset is seeded with
`align_to(CompressedDatabaseSize, 16)` before the loop. -/
def presaveClipOffsets (dbSize : Nat) (sizes : List Nat) : List Nat :=
  (presaveLayout (alignTo16u32 dbSize) sizes).1

/-- Total size of the `CompressedBytes` buffer built by `PreSave`: the final
value of `CompressedSequenceOffset`, deliberately not aligned after the last
clip. -/
def presaveBufferSize (dbSize : Nat) (sizes : List Nat) : Nat :=
  (presaveLayout (alignTo16u32 dbSize) sizes).2

/-- Embedding of the `CookedAnimSequenceMappings` array built by `PreSave`:
one packed `(hash << 32) | offset` entry per cooked sequence, sorted ascending
as 64-bit values (`TArray::Sort`, modelled by `List.mergeSort` with `≤`). -/
def presaveMappings (dbSize : Nat) (seqs : List SeqEntry) : List Nat :=
  List.mergeSort
    (List.zipWith (fun e off => packMapping e.hash off) seqs
      (presaveClipOffsets dbSize (seqs.map SeqEntry.size)))
    (fun a b => decide (a ≤ b))

/-- Embedding of the lookup of `FACLDatabaseCompressedAnimData::Bind`: binary
search the sorted mapping array by sequence name hash; on success read the
byte offset from the low 32 bits (`uint32(...)` truncation) of the entry. -/
def bindLookup (mappings : List Nat) (sequenceNameHash : Nat) : Option Nat :=
  match binarySearchBy mappingHash mappings sequenceNameHash with
  | some i => some (mappings.getD i 0 % U32)
  | none => none

/-- Runtime state of `FACLDatabaseCompressedAnimData` relevant to `Bind`:
length of the bound `CompressedByteStream` view and whether the
`DatabaseContext` pointer has been set. -/
structure AnimDataState where
  compressedByteStreamLen : Nat
  databaseContextBound : Bool
deriving DecidableEq

/-- State of a cooked anim data before `Bind` runs: empty byte stream view and
no database context. -/
def unboundAnimData : AnimDataState := ⟨0, false⟩

/-- Embedding of `FACLDatabaseCompressedAnimData::Bind` (cooked branch): on a
binary-search hit, bind the byte stream view at the recorded offset (its
length read from the clip header there, modelled by `clipSizeAt`) and the
database context; on `INDEX_NONE`, log that the mapping is stale and leave the
state untouched. -/
def bindCooked (mappings : List Nat) (sequenceNameHash : Nat)
    (clipSizeAt : Nat → Nat) (st : AnimDataState) : AnimDataState :=
  match binarySearchBy mappingHash mappings sequenceNameHash with
  | some i =>
      { compressedByteStreamLen := clipSizeAt (mappings.getD i 0 % U32),
        databaseContextBound := true }
  | none => st

theorem packMapping_div (h off : Nat) : packMapping h off / U32 = h % U32 := by
  simp only [packMapping, U32]
  omega

theorem packMapping_mod (h off : Nat) : packMapping h off % U32 = off % U32 := by
  simp only [packMapping, U32]
  omega

theorem packMapping_lt (h off : Nat) : packMapping h off < U32 * U32 := by
  simp only [packMapping, U32]
  omega

/-- The hash-extracting projection recovers the hash from a packed entry. -/
theorem mappingHash_packMapping (h off : Nat) :
    mappingHash (packMapping h off) = h % U32 := by
  simp only [mappingHash, packMapping, U32]
  omega

theorem alignTo16u32_lt (x : Nat) : alignTo16u32 x < U32 := by
  simp only [alignTo16u32, U32]
  omega

theorem presaveLayout_cons (off s : Nat) (rest : List Nat) :
    presaveLayout off (s :: rest) =
      (alignTo16u32 off :: (presaveLayout ((alignTo16u32 off + s) % U32) rest).1,
       (presaveLayout ((alignTo16u32 off + s) % U32) rest).2) := rfl

theorem presaveLayout_length (sizes : List Nat) :
    ∀ off, (presaveLayout off sizes).1.length = sizes.length := by
  induction sizes with
  | nil => intro off; rfl
  | cons s rest ih =>
      intro off
      rw [presaveLayout_cons]
      simp [ih]

theorem presaveLayout_fst_lt (sizes : List Nat) :
    ∀ off, ∀ o ∈ (presaveLayout off sizes).1, o < U32 := by
  induction sizes with
  | nil =>
      intro off o ho
      simp [presaveLayout] at ho
  | cons s rest ih =>
      intro off o ho
      rw [presaveLayout_cons] at ho
      rcases List.mem_cons.mp ho with rfl | hmem
      · exact alignTo16u32_lt off
      · exact ih _ o hmem

/-- Sorting the packed 64-bit mapping values with `≤` sorts them by hash,
because the hash occupies the top 32 bits of each (below `2^64`) value. -/
theorem presaveMappings_sortedByProj (dbSize : Nat) (seqs : List SeqEntry) :
    SortedByProj mappingHash (presaveMappings dbSize seqs) := by
  have hp : (presaveMappings dbSize seqs).Pairwise
      (fun a b : Nat => decide (a ≤ b) = true) := by
    rw [presaveMappings]
    apply List.sorted_mergeSort
    · intro a b c hab hbc
      simp only [decide_eq_true_eq] at hab hbc ⊢
      omega
    · intro a b
      rcases Nat.le_total a b with h | h <;> simp [h]
  have hle : (presaveMappings dbSize seqs).Pairwise (fun a b : Nat => a ≤ b) :=
    hp.imp (fun h => by simpa using h)
  have hbound : ∀ x ∈ presaveMappings dbSize seqs, x < U32 * U32 := by
    intro x hx
    rw [presaveMappings, List.mem_mergeSort, List.mem_iff_getElem] at hx
    obtain ⟨k, hk, hkx⟩ := hx
    rw [List.getElem_zipWith] at hkx
    exact hkx ▸ packMapping_lt _ _
  refine hle.imp_of_mem ?_
  intro a b ha hb hab
  have h1 := hbound a ha
  have h2 := hbound b hb
  simp only [mappingHash, U32] at h1 h2 ⊢
  omega

/-- Every entry of the sorted mapping array is the packed hash and recorded
offset of one of the cooked sequences. -/
theorem presaveMappings_mem_decomp {dbSize : Nat} {seqs : List SeqEntry} {x : Nat}
    (hx : x ∈ presaveMappings dbSize seqs) :
    ∃ k, ∃ hk : k < seqs.length,
      x = packMapping (seqs.get ⟨k, hk⟩).hash
            ((presaveClipOffsets dbSize (seqs.map SeqEntry.size)).getD k 0) := by
  rw [presaveMappings, List.mem_mergeSort, List.mem_iff_getElem] at hx
  obtain ⟨k, hk, hkx⟩ := hx
  have hklen := hk
  rw [List.length_zipWith] at hklen
  have hk1 : k < seqs.length := by omega
  have hk2 : k < (presaveClipOffsets dbSize (seqs.map SeqEntry.size)).length := by
    omega
  refine ⟨k, hk1, ?_⟩
  rw [List.getElem_zipWith] at hkx
  rw [← hkx, List.getD_eq_getElem _ _ hk2]
  rfl

theorem presaveClipOffsets_length (dbSize : Nat) (sizes : List Nat) :
    (presaveClipOffsets dbSize sizes).length = sizes.length := by
  rw [presaveClipOffsets, presaveLayout_length]

theorem presaveClipOffsets_lt (dbSize : Nat) (sizes : List Nat) :
    ∀ o ∈ presaveClipOffsets dbSize sizes, o < U32 :=
  presaveLayout_fst_lt sizes (alignTo16u32 dbSize)

/-- C1: for every offset table built by `PreSave` (entries packed as
`(SequenceNameHash << 32) | offset` and sorted as 64-bit values, hence sorted
by hash), binary search by a hash that is present returns the byte offset
recorded for that hash, and for a hash that is absent it returns not-found
(`INDEX_NONE`, modelled by `none`), in which case `Bind` does not bind any
compressed data (the anim data state is left untouched). The hashes are
`uint32` values and are assumed pairwise distinct, which is what makes "the"
recorded offset of a present hash well defined. -/
theorem presave_offset_table_lookup (dbSize : Nat) (seqs : List SeqEntry)
    (hh : ∀ e ∈ seqs, e.hash < U32)
    (hnodup : (seqs.map SeqEntry.hash).Nodup) :
    (∀ i, ∀ hi : i < seqs.length,
        bindLookup (presaveMappings dbSize seqs) (seqs.get ⟨i, hi⟩).hash
          = some ((presaveClipOffsets dbSize (seqs.map SeqEntry.size)).getD i 0)) ∧
    (∀ h, h ∉ seqs.map SeqEntry.hash →
        bindLookup (presaveMappings dbSize seqs) h = none ∧
        ∀ clipSizeAt st,
          bindCooked (presaveMappings dbSize seqs) h clipSizeAt st = st) := by
  have hsorted := presaveMappings_sortedByProj dbSize seqs
  have hofflen : (presaveClipOffsets dbSize (seqs.map SeqEntry.size)).length
      = seqs.length := by
    rw [presaveClipOffsets_length, List.length_map]
  constructor
  · intro i hi
    have hilen2 : i < (List.zipWith (fun e off => packMapping e.hash off) seqs
        (presaveClipOffsets dbSize (seqs.map SeqEntry.size))).length := by
      rw [List.length_zipWith]
      omega
    have hpackmem : (List.zipWith (fun e off => packMapping e.hash off) seqs
        (presaveClipOffsets dbSize (seqs.map SeqEntry.size)))[i]
          ∈ presaveMappings dbSize seqs := by
      rw [presaveMappings, List.mem_mergeSort]
      exact List.getElem_mem hilen2
    obtain ⟨j, hj, hjx⟩ := List.mem_iff_getElem.mp hpackmem
    rw [List.getElem_zipWith] at hjx
    have hproj : mappingHash ((presaveMappings dbSize seqs).getD j 0)
        = (seqs.get ⟨i, hi⟩).hash := by
      rw [List.getD_eq_getElem _ _ hj, hjx, mappingHash_packMapping,
        List.get_eq_getElem]
      exact Nat.mod_eq_of_lt (hh _ (List.getElem_mem hi))
    obtain ⟨r, hfind, hrlen, hrproj⟩ := binarySearchBy_present hsorted hj hproj
    have hrmem : (presaveMappings dbSize seqs).getD r 0
        ∈ presaveMappings dbSize seqs := by
      rw [List.getD_eq_getElem _ _ hrlen]
      exact List.getElem_mem hrlen
    obtain ⟨k, hk, hkeq⟩ := presaveMappings_mem_decomp hrmem
    have hkhash : (seqs.get ⟨k, hk⟩).hash = (seqs.get ⟨i, hi⟩).hash := by
      rw [hkeq, mappingHash_packMapping,
        Nat.mod_eq_of_lt (hh _ (List.get_mem seqs k hk))] at hrproj
      exact hrproj
    have hki : k = i := by
      have hmapk : k < (seqs.map SeqEntry.hash).length := by
        rw [List.length_map]; exact hk
      have hmapi : i < (seqs.map SeqEntry.hash).length := by
        rw [List.length_map]; exact hi
      have hmeq : (seqs.map SeqEntry.hash).get ⟨k, hmapk⟩
          = (seqs.map SeqEntry.hash).get ⟨i, hmapi⟩ := by
        rw [List.get_eq_getElem, List.get_eq_getElem, List.getElem_map,
          List.getElem_map]
        exact hkhash
      simp only [List.get_eq_getElem] at hmeq
      exact hnodup.getElem_inj_iff.mp hmeq
    subst hki
    have hoffmem : (presaveClipOffsets dbSize (seqs.map SeqEntry.size)).getD k 0
        ∈ presaveClipOffsets dbSize (seqs.map SeqEntry.size) := by
      rw [List.getD_eq_getElem _ _ (by omega)]
      exact List.getElem_mem (by omega)
    rw [bindLookup, hfind]
    show some ((presaveMappings dbSize seqs).getD r 0 % U32) = _
    rw [hkeq, packMapping_mod,
      Nat.mod_eq_of_lt (presaveClipOffsets_lt _ _ _ hoffmem)]
  · intro h hnot
    have habs : ∀ x ∈ presaveMappings dbSize seqs, mappingHash x ≠ h := by
      intro x hx
      obtain ⟨k, hk, hkeq⟩ := presaveMappings_mem_decomp hx
      rw [hkeq, mappingHash_packMapping,
        Nat.mod_eq_of_lt (hh _ (List.get_mem seqs k hk))]
      intro hcontra
      exact hnot (hcontra ▸ List.mem_map_of_mem SeqEntry.hash
        (List.get_mem seqs k hk))
    have hnone := binarySearchBy_absent hsorted habs
    refine ⟨?_, ?_⟩
    · rw [bindLookup, hnone]
    · intro clipSizeAt st
      rw [bindCooked, hnone]

/-- Witness for C1: the lookup theorem applied to three sequences with hashes
3, 1, 2 and clip sizes 100, 240, 80 and a database lookup size of 0. -/
theorem presave_offset_table_lookup_witness :
    (∀ e ∈ [SeqEntry.mk 3 100, SeqEntry.mk 1 240, SeqEntry.mk 2 80], e.hash < U32) ∧
    ([SeqEntry.mk 3 100, SeqEntry.mk 1 240, SeqEntry.mk 2 80].map SeqEntry.hash).Nodup ∧
    ((∀ i, ∀ hi : i < [SeqEntry.mk 3 100, SeqEntry.mk 1 240, SeqEntry.mk 2 80].length,
        bindLookup
          (presaveMappings 0 [SeqEntry.mk 3 100, SeqEntry.mk 1 240, SeqEntry.mk 2 80])
          ([SeqEntry.mk 3 100, SeqEntry.mk 1 240, SeqEntry.mk 2 80].get ⟨i, hi⟩).hash
          = some ((presaveClipOffsets 0
              ([SeqEntry.mk 3 100, SeqEntry.mk 1 240, SeqEntry.mk 2 80].map SeqEntry.size)).getD i 0)) ∧
     (∀ h, h ∉ [SeqEntry.mk 3 100, SeqEntry.mk 1 240, SeqEntry.mk 2 80].map SeqEntry.hash →
        bindLookup
          (presaveMappings 0 [SeqEntry.mk 3 100, SeqEntry.mk 1 240, SeqEntry.mk 2 80]) h = none ∧
        ∀ clipSizeAt st,
          bindCooked
            (presaveMappings 0 [SeqEntry.mk 3 100, SeqEntry.mk 1 240, SeqEntry.mk 2 80])
            h clipSizeAt st = st)) :=
  ⟨by decide, by decide,
    presave_offset_table_lookup 0
      [SeqEntry.mk 3 100, SeqEntry.mk 1 240, SeqEntry.mk 2 80]
      (by decide) (by decide)⟩

theorem alignTo16u32_eq (x : Nat) (hx : x + 15 < U32) :
    alignTo16u32 x = (x + 15) / 16 * 16 := by
  simp only [alignTo16u32]
  rw [Nat.mod_eq_of_lt hx]

theorem alignTo16u32_ge (x : Nat) (hx : x + 15 < U32) : x ≤ alignTo16u32 x := by
  rw [alignTo16u32_eq x hx]
  omega

theorem alignTo16u32_le (x : Nat) : alignTo16u32 x ≤ x + 15 := by
  simp only [alignTo16u32, U32]
  omega

theorem alignTo16u32_mod16 (x : Nat) : alignTo16u32 x % 16 = 0 := by
  simp only [alignTo16u32, U32]
  omega

theorem alignTo16u32_idem (x : Nat) (hx : x + 30 < U32) :
    alignTo16u32 (alignTo16u32 x) = alignTo16u32 x := by
  simp only [alignTo16u32, U32] at hx ⊢
  omega

/-- Invariants of the `PreSave` offset-assignment loop, for any starting
offset, provided the whole layout fits in 32 bits so that no `uint32`
wrap-around occurs: the offsets list has one entry per clip, its head is the
aligned starting offset, every entry is 16-byte aligned, consecutive entries
satisfy the aligned-chain recurrence (so clips never overlap), and the final
offset is the last entry plus the last clip size (no trailing padding). -/
theorem presaveLayout_invariants :
    ∀ (sizes : List Nat) (off : Nat),
      off + sizes.sum + 15 * (sizes.length + 1) < U32 →
      (presaveLayout off sizes).1.length = sizes.length ∧
      (sizes ≠ [] → (presaveLayout off sizes).1.getD 0 0 = alignTo16u32 off) ∧
      (∀ o ∈ (presaveLayout off sizes).1, o % 16 = 0) ∧
      (∀ i, i + 1 < sizes.length →
        (presaveLayout off sizes).1.getD (i + 1) 0
          = alignTo16u32 ((presaveLayout off sizes).1.getD i 0 + sizes.getD i 0) ∧
        (presaveLayout off sizes).1.getD i 0 + sizes.getD i 0
          ≤ (presaveLayout off sizes).1.getD (i + 1) 0) ∧
      (sizes ≠ [] →
        (presaveLayout off sizes).2
          = (presaveLayout off sizes).1.getD (sizes.length - 1) 0
            + sizes.getD (sizes.length - 1) 0) ∧
      (sizes = [] → (presaveLayout off sizes).2 = off) := by
  intro sizes
  induction sizes with
  | nil =>
      intro off hb
      refine ⟨rfl, by intro hne; exact absurd rfl hne, ?_, ?_, ?_, fun _ => rfl⟩
      · intro o ho
        simp [presaveLayout] at ho
      · intro i hi
        simp at hi
      · intro hne
        exact absurd rfl hne
  | cons s rest ih =>
      intro off hb
      simp only [List.sum_cons, List.length_cons] at hb
      have hale : alignTo16u32 off ≤ off + 15 := alignTo16u32_le off
      have hsum : (alignTo16u32 off + s) + rest.sum + 15 * (rest.length + 1) < U32 := by
        omega
      have hmod : (alignTo16u32 off + s) % U32 = alignTo16u32 off + s :=
        Nat.mod_eq_of_lt (by omega)
      have hrec := ih (alignTo16u32 off + s) hsum
      rw [presaveLayout_cons, hmod]
      refine ⟨?_, ?_, ?_, ?_, ?_, ?_⟩
      · simp [presaveLayout_length]
      · intro _
        rfl
      · intro o ho
        rcases List.mem_cons.mp ho with rfl | hmem
        · exact alignTo16u32_mod16 off
        · exact hrec.2.2.1 o hmem
      · intro i hi
        match i with
        | 0 =>
            have hrne : rest ≠ [] := by
              intro hcon
              rw [hcon] at hi
              simp at hi
            have hhead := hrec.2.1 hrne
            rw [List.getD_cons_succ, List.getD_cons_zero, List.getD_cons_zero, hhead]
            exact ⟨rfl, alignTo16u32_ge _ (by omega)⟩
        | Nat.succ j =>
            have hj : j + 1 < rest.length := by
              simp at hi
              omega
            have := hrec.2.2.2.1 j hj
            simpa using this
      · intro _
        by_cases hrne : rest = []
        · subst hrne
          simp [presaveLayout, hmod]
        · have hlast := hrec.2.2.2.2.1 hrne
          have hlpos : 1 ≤ rest.length := by
            cases rest with
            | nil => exact absurd rfl hrne
            | cons a t => simp
          have hidx : rest.length - 1 + 1 = rest.length := by omega
          simp only [List.length_cons, Nat.add_sub_cancel]
          rw [← hidx, List.getD_cons_succ, List.getD_cons_succ]
          exact hlast
      · intro hcon
        cases hcon

/-- C2: in the `ConsolidatedBuffer` produced by `PreSave`, the first clip
offset is the database lookup size rounded up to 16, every recorded clip
offset is a multiple of 16, consecutive offsets satisfy
`offset[i+1] = align16(offset[i] + size(clip_i))` with
`offset[i] + size(clip_i) ≤ offset[i+1]` (clips never overlap; padding only
before clips), and the total buffer size equals the final unaligned offset,
i.e. the last clip offset plus the last clip size (no trailing padding). The
hypothesis bounds the layout so that the source's `uint32` arithmetic does
not wrap. -/
theorem presave_layout_correct (dbSize : Nat) (sizes : List Nat)
    (hov : dbSize + sizes.sum + 15 * (sizes.length + 2) < U32)
    (hne : sizes ≠ []) :
    (presaveClipOffsets dbSize sizes).length = sizes.length ∧
    (presaveClipOffsets dbSize sizes).getD 0 0 = (dbSize + 15) / 16 * 16 ∧
    (∀ o ∈ presaveClipOffsets dbSize sizes, o % 16 = 0) ∧
    (∀ i, i + 1 < sizes.length →
      (presaveClipOffsets dbSize sizes).getD (i + 1) 0
        = alignTo16u32 ((presaveClipOffsets dbSize sizes).getD i 0 + sizes.getD i 0) ∧
      (presaveClipOffsets dbSize sizes).getD i 0 + sizes.getD i 0
        ≤ (presaveClipOffsets dbSize sizes).getD (i + 1) 0) ∧
    presaveBufferSize dbSize sizes
      = (presaveClipOffsets dbSize sizes).getD (sizes.length - 1) 0
        + sizes.getD (sizes.length - 1) 0 := by
  have hale : alignTo16u32 dbSize ≤ dbSize + 15 := alignTo16u32_le dbSize
  have hinv := presaveLayout_invariants sizes (alignTo16u32 dbSize) (by omega)
  refine ⟨hinv.1, ?_, hinv.2.2.1, hinv.2.2.2.1, hinv.2.2.2.2.1 hne⟩
  show (presaveLayout (alignTo16u32 dbSize) sizes).1.getD 0 0 = _
  rw [hinv.2.1 hne, alignTo16u32_idem dbSize (by omega),
    alignTo16u32_eq dbSize (by omega)]

/-- Witness for C2: three clips of sizes 100, 240 and 80 bytes on top of a
database lookup region of size 0, as in the end-to-end scenario of the spec
(offsets 0, 112 and 352, total size 432). -/
theorem presave_layout_correct_witness :
    (0 + [100, 240, 80].sum + 15 * ([100, 240, 80].length + 2) < U32 ∧
      [100, 240, 80] ≠ ([] : List Nat)) ∧
    ((presaveClipOffsets 0 [100, 240, 80]).length = [100, 240, 80].length ∧
     (presaveClipOffsets 0 [100, 240, 80]).getD 0 0 = (0 + 15) / 16 * 16 ∧
     (∀ o ∈ presaveClipOffsets 0 [100, 240, 80], o % 16 = 0) ∧
     (∀ i, i + 1 < [100, 240, 80].length →
       (presaveClipOffsets 0 [100, 240, 80]).getD (i + 1) 0
         = alignTo16u32 ((presaveClipOffsets 0 [100, 240, 80]).getD i 0
             + [100, 240, 80].getD i 0) ∧
       (presaveClipOffsets 0 [100, 240, 80]).getD i 0 + [100, 240, 80].getD i 0
         ≤ (presaveClipOffsets 0 [100, 240, 80]).getD (i + 1) 0) ∧
     presaveBufferSize 0 [100, 240, 80]
       = (presaveClipOffsets 0 [100, 240, 80]).getD ([100, 240, 80].length - 1) 0
         + [100, 240, 80].getD ([100, 240, 80].length - 1) 0) :=
  ⟨⟨by decide, by decide⟩,
    presave_layout_correct 0 [100, 240, 80] (by decide) (by decide)⟩

/-- Decode outcome of the cooked branch of
`UAnimBoneCompressionCodec_ACLDatabase::DecompressPose` / `DecompressBone`:
either the early return that leaves the output transforms at their default
(identity/T-pose) values, the database-less clip-only fallback, or a decode
through the database context. -/
inductive PoseDecodeOutcome
  | defaultPose
  | clipOnlyFallback
  | databaseDecode
deriving DecidableEq

/-- Embedding of the cooked (`!WITH_EDITORONLY_DATA`) branch of
`UAnimBoneCompressionCodec_ACLDatabase::DecompressPose`: an empty
`CompressedByteStream` (stale mapping) returns early, before any validity
check, leaving the output at its deterministic default; then the clip data is
checked (`check(CompressedClipData != nullptr && is_valid)`, fatal `none` on
failure); then a null `DatabaseContext` or a failed context initialisation
logs a warning and falls back to clip-only decoding. The `Bool` in the result
records whether the fallback warning was logged. -/
def decompressPoseCooked (compressedByteStreamLen : Nat) (clipDataValid : Bool)
    (databaseContextBound : Bool) (contextInitOk : Bool) :
    Option (PoseDecodeOutcome × Bool) :=
  if compressedByteStreamLen = 0 then some (PoseDecodeOutcome.defaultPose, false)
  else if clipDataValid = false then none
  else if databaseContextBound = false ∨ contextInitOk = false then
    some (PoseDecodeOutcome.clipOnlyFallback, true)
  else some (PoseDecodeOutcome.databaseDecode, false)

/-- Embedding of the cooked branch of
`UAnimBoneCompressionCodec_ACLDatabase::DecompressBone`, whose control flow is
identical to `DecompressPose`. -/
def decompressBoneCooked (compressedByteStreamLen : Nat) (clipDataValid : Bool)
    (databaseContextBound : Bool) (contextInitOk : Bool) :
    Option (PoseDecodeOutcome × Bool) :=
  if compressedByteStreamLen = 0 then some (PoseDecodeOutcome.defaultPose, false)
  else if clipDataValid = false then none
  else if databaseContextBound = false ∨ contextInitOk = false then
    some (PoseDecodeOutcome.clipOnlyFallback, true)
  else some (PoseDecodeOutcome.databaseDecode, false)

/-- C3: decompression never hard-fails in the scenarios of the claim. In a
cooked build, if no database context is bound or database-context
initialisation fails, `DecompressPose` and `DecompressBone` log a warning and
fall back to clip-only decoding; and for a clip whose hash is absent from the
offset table (stale mapping, `Bind` left the state unbound), decoding takes
the early-return path before any fatal check and produces the deterministic
default output (identity/T-pose transforms). -/
theorem decompress_never_hard_fails
    (n : Nat) (valid dbBound initOk : Bool)
    (mappings : List Nat) (h : Nat) (clipSizeAt : Nat → Nat) :
    (dbBound = false ∨ initOk = false → n ≠ 0 → valid = true →
      decompressPoseCooked n valid dbBound initOk
        = some (PoseDecodeOutcome.clipOnlyFallback, true) ∧
      decompressBoneCooked n valid dbBound initOk
        = some (PoseDecodeOutcome.clipOnlyFallback, true)) ∧
    (bindLookup mappings h = none →
      (bindCooked mappings h clipSizeAt unboundAnimData).compressedByteStreamLen
        = 0 ∧
      decompressPoseCooked
        (bindCooked mappings h clipSizeAt unboundAnimData).compressedByteStreamLen
        valid dbBound initOk = some (PoseDecodeOutcome.defaultPose, false) ∧
      decompressBoneCooked
        (bindCooked mappings h clipSizeAt unboundAnimData).compressedByteStreamLen
        valid dbBound initOk = some (PoseDecodeOutcome.defaultPose, false)) := by
  constructor
  · intro hfb hn hv
    subst hv
    have hcond : dbBound = false ∨ initOk = false := hfb
    constructor
    · rw [decompressPoseCooked, if_neg hn, if_neg (by simp), if_pos hcond]
    · rw [decompressBoneCooked, if_neg hn, if_neg (by simp), if_pos hcond]
  · intro hnone
    have hbs : binarySearchBy mappingHash mappings h = none := by
      cases hbs : binarySearchBy mappingHash mappings h with
      | none => rfl
      | some i =>
          rw [bindLookup, hbs] at hnone
          cases hnone
    have hst : bindCooked mappings h clipSizeAt unboundAnimData = unboundAnimData := by
      rw [bindCooked, hbs]
    rw [hst]
    exact ⟨rfl, rfl, rfl⟩

/-- Witness for C3: the fallback branch at a nonempty byte stream with no
database context bound, and the stale-mapping branch with an empty offset
table. -/
theorem decompress_never_hard_fails_witness :
    ((false = false ∨ true = false) ∧ 3 ≠ 0 ∧ true = true ∧
      bindLookup [] 5 = none) ∧
    (decompressPoseCooked 3 true false true
        = some (PoseDecodeOutcome.clipOnlyFallback, true) ∧
     decompressBoneCooked 3 true false true
        = some (PoseDecodeOutcome.clipOnlyFallback, true)) ∧
    ((bindCooked [] 5 (fun _ => 0) unboundAnimData).compressedByteStreamLen = 0 ∧
     decompressPoseCooked
        (bindCooked [] 5 (fun _ => 0) unboundAnimData).compressedByteStreamLen
        true false true = some (PoseDecodeOutcome.defaultPose, false) ∧
     decompressBoneCooked
        (bindCooked [] 5 (fun _ => 0) unboundAnimData).compressedByteStreamLen
        true false true = some (PoseDecodeOutcome.defaultPose, false)) :=
  ⟨⟨Or.inl rfl, by decide, rfl, by rw [bindLookup, binarySearchBy_nil]⟩,
   (decompress_never_hard_fails 3 true false true [] 5 (fun _ => 0)).1
      (Or.inl rfl) (by decide) rfl,
   (decompress_never_hard_fails 3 true false true [] 5 (fun _ => 0)).2
      (by rw [bindLookup, binarySearchBy_nil])⟩

/-- State of a `UE4DatabaseStreamer` instance: whether the resident bulk-data
buffer is allocated (`BulkDataPtr != nullptr`) and whether an asynchronous
request is in flight (`PendingIORequest != nullptr`). -/
structure StreamerState where
  bulkDataAllocated : Bool
  pendingIORequest : Bool
deriving DecidableEq

/-- Observable events of the streamer, in program order. -/
inductive SEvent
  | pendingRequestCompleted
  | bulkDataAllocatedEv
  | streamInRequestIssued
  | streamInContinuationFailed
  | bulkDataDeallocated
  | streamOutContinuationCalled
deriving DecidableEq

/-- Embedding of `UE4DatabaseStreamer::WaitForStreamingToComplete`: when a
request is pending, block until its completion (the pending request's
completion callback runs), delete the request and reset the pointer;
otherwise do nothing. -/
def waitForStreamingToComplete (st : StreamerState) : StreamerState × List SEvent :=
  if st.pendingIORequest then
    ({ st with pendingIORequest := false }, [SEvent.pendingRequestCompleted])
  else (st, [])

/-- Embedding of `UE4DatabaseStreamer::stream_in`. The three `checkf` bounds
assertions fail fatally (`none`) when violated; the `uint64` casts in the
third check make the `Nat` addition exact for `uint32` arguments. Otherwise
the call waits for any pending request, allocates the bulk buffer when
`CanAllocateBulkData` (fatally checking that it is currently unallocated),
then fires the asynchronous request: `PendingIORequest` is the value returned
by `CreateStreamingRequest` (modelled by `requestDispatchOk`), and on a null
return the continuation is invoked synchronously with failure. -/
def stream_in (st : StreamerState) (Offset Size BulkDataSize : Nat)
    (CanAllocateBulkData requestDispatchOk : Bool) :
    Option (StreamerState × List SEvent) :=
  if ¬ Offset < BulkDataSize then none
  else if ¬ Size ≤ BulkDataSize then none
  else if ¬ Offset + Size ≤ BulkDataSize then none
  else
    let w := waitForStreamingToComplete st
    if CanAllocateBulkData then
      if w.1.bulkDataAllocated then none
      else
        if requestDispatchOk then
          some ({ bulkDataAllocated := true, pendingIORequest := true },
                w.2 ++ [SEvent.bulkDataAllocatedEv, SEvent.streamInRequestIssued])
        else
          some ({ bulkDataAllocated := true, pendingIORequest := false },
                w.2 ++ [SEvent.bulkDataAllocatedEv, SEvent.streamInContinuationFailed])
    else
      if requestDispatchOk then
        some ({ w.1 with pendingIORequest := true },
              w.2 ++ [SEvent.streamInRequestIssued])
      else
        some ({ w.1 with pendingIORequest := false },
              w.2 ++ [SEvent.streamInContinuationFailed])

/-- Embedding of `UE4DatabaseStreamer::stream_out`: same fatal bounds checks,
wait for any pending request, free the bulk buffer when
`CanDeallocateBulkData` (fatally checking that it is currently allocated,
and resetting the pointer to null), then invoke the continuation
synchronously (no I/O is needed to stream out). -/
def stream_out (st : StreamerState) (Offset Size BulkDataSize : Nat)
    (CanDeallocateBulkData : Bool) :
    Option (StreamerState × List SEvent) :=
  if ¬ Offset < BulkDataSize then none
  else if ¬ Size ≤ BulkDataSize then none
  else if ¬ Offset + Size ≤ BulkDataSize then none
  else
    let w := waitForStreamingToComplete st
    if CanDeallocateBulkData then
      if w.1.bulkDataAllocated = false then none
      else
        some ({ bulkDataAllocated := false, pendingIORequest := false },
              w.2 ++ [SEvent.bulkDataDeallocated, SEvent.streamOutContinuationCalled])
    else
      some (w.1, w.2 ++ [SEvent.streamOutContinuationCalled])

/-- Embedding of `UE4DatabaseStreamer::get_bulk_data`: returns the current
resident pointer, null (`none`) exactly when the buffer is not allocated. -/
def get_bulk_data (st : StreamerState) : Option Unit :=
  if st.bulkDataAllocated then some () else none

theorem waitForStreamingToComplete_fst (st : StreamerState) :
    (waitForStreamingToComplete st).1.bulkDataAllocated = st.bulkDataAllocated ∧
    (waitForStreamingToComplete st).1.pendingIORequest = false := by
  rcases st with ⟨ba, pe⟩
  cases pe <;> simp [waitForStreamingToComplete]

theorem stream_in_some_bounds {st : StreamerState} {O S B : Nat} {ca io : Bool}
    {p : StreamerState × List SEvent}
    (h : stream_in st O S B ca io = some p) :
    O < B ∧ S ≤ B ∧ O + S ≤ B := by
  rw [stream_in] at h
  by_cases h1 : O < B
  · rw [if_neg (not_not_intro h1)] at h
    by_cases h2 : S ≤ B
    · rw [if_neg (not_not_intro h2)] at h
      by_cases h3 : O + S ≤ B
      · exact ⟨h1, h2, h3⟩
      · rw [if_pos h3] at h
        exact Option.noConfusion h
    · rw [if_pos h2] at h
      exact Option.noConfusion h
  · rw [if_pos h1] at h
    exact Option.noConfusion h

theorem stream_out_some_bounds {st : StreamerState} {O S B : Nat} {cd : Bool}
    {p : StreamerState × List SEvent}
    (h : stream_out st O S B cd = some p) :
    O < B ∧ S ≤ B ∧ O + S ≤ B := by
  rw [stream_out] at h
  by_cases h1 : O < B
  · rw [if_neg (not_not_intro h1)] at h
    by_cases h2 : S ≤ B
    · rw [if_neg (not_not_intro h2)] at h
      by_cases h3 : O + S ≤ B
      · exact ⟨h1, h2, h3⟩
      · rw [if_pos h3] at h
        exact Option.noConfusion h
    · rw [if_pos h2] at h
      exact Option.noConfusion h
  · rw [if_pos h1] at h
    exact Option.noConfusion h

/-- C4: within one streamer instance at most one request is in flight. Every
successful `stream_in` and `stream_out` call on a state with a pending
request first completes that request: the pending request's completion is the
first observable event of the call, before any new request is issued; and
`WaitForStreamingToComplete` is a no-op (idempotent) when no request is
pending. -/
theorem streamer_at_most_one_in_flight :
    (∀ st : StreamerState, ∀ O S B : Nat, ∀ ca io : Bool,
      ∀ st2 : StreamerState, ∀ evs : List SEvent,
        st.pendingIORequest = true →
        stream_in st O S B ca io = some (st2, evs) →
        evs.head? = some SEvent.pendingRequestCompleted) ∧
    (∀ st : StreamerState, ∀ O S B : Nat, ∀ cd : Bool,
      ∀ st2 : StreamerState, ∀ evs : List SEvent,
        st.pendingIORequest = true →
        stream_out st O S B cd = some (st2, evs) →
        evs.head? = some SEvent.pendingRequestCompleted) ∧
    (∀ st : StreamerState, st.pendingIORequest = false →
        waitForStreamingToComplete st = (st, [])) := by
  refine ⟨?_, ?_, ?_⟩
  · rintro ⟨ba, pe⟩ O S B ca io st2 evs hpend hcall
    obtain ⟨h1, h2, h3⟩ := stream_in_some_bounds hcall
    simp only at hpend
    subst hpend
    cases ba <;> cases ca <;> cases io <;>
      simp_all [stream_in, waitForStreamingToComplete, h1, h2, h3]
    all_goals obtain ⟨-, rfl⟩ := hcall
    all_goals rfl
  · rintro ⟨ba, pe⟩ O S B cd st2 evs hpend hcall
    obtain ⟨h1, h2, h3⟩ := stream_out_some_bounds hcall
    simp only at hpend
    subst hpend
    cases ba <;> cases cd <;>
      simp_all [stream_out, waitForStreamingToComplete, h1, h2, h3]
    all_goals obtain ⟨-, rfl⟩ := hcall
    all_goals rfl
  · rintro ⟨ba, pe⟩ hpend
    simp only at hpend
    subst hpend
    simp [waitForStreamingToComplete]

/-- Witness for C4: a streamer with a pending request; both `stream_in` and
`stream_out` complete it first, and the wait is a no-op with none pending. -/
theorem streamer_at_most_one_in_flight_witness :
    ((StreamerState.mk false true).pendingIORequest = true ∧
     stream_in (StreamerState.mk false true) 0 4 16 false true
       = some (StreamerState.mk false true,
           [SEvent.pendingRequestCompleted, SEvent.streamInRequestIssued]) ∧
     stream_out (StreamerState.mk false true) 0 4 16 false
       = some (StreamerState.mk false false,
           [SEvent.pendingRequestCompleted, SEvent.streamOutContinuationCalled]) ∧
     (StreamerState.mk false false).pendingIORequest = false) ∧
    ([SEvent.pendingRequestCompleted, SEvent.streamInRequestIssued].head?
       = some SEvent.pendingRequestCompleted ∧
     [SEvent.pendingRequestCompleted, SEvent.streamOutContinuationCalled].head?
       = some SEvent.pendingRequestCompleted ∧
     waitForStreamingToComplete (StreamerState.mk false false)
       = (StreamerState.mk false false, [])) :=
  ⟨⟨rfl, by decide, by decide, rfl⟩,
   streamer_at_most_one_in_flight.1 (StreamerState.mk false true) 0 4 16 false true
     (StreamerState.mk false true) _ rfl (by decide),
   streamer_at_most_one_in_flight.2.1 (StreamerState.mk false true) 0 4 16 false
     (StreamerState.mk false false) _ rfl (by decide),
   streamer_at_most_one_in_flight.2.2 (StreamerState.mk false false) rfl⟩

/-- C5: the resident buffer follows the allocate-on-first / free-on-last flag
protocol. `stream_in` with `can_allocate = true` fatally requires the buffer
to be unallocated and allocates it; with `can_allocate = false` it never
allocates. `stream_out` with `can_deallocate = true` fatally requires the
buffer to be allocated, frees it and resets it to null, so a second
deallocating `stream_out` without an intervening allocation is fatal; and
`get_bulk_data` returns null exactly when the buffer is not allocated. -/
theorem streamer_alloc_protocol :
    (∀ st : StreamerState, ∀ O S B : Nat, ∀ io : Bool,
        st.bulkDataAllocated = true → stream_in st O S B true io = none) ∧
    (∀ st : StreamerState, ∀ O S B : Nat, ∀ io : Bool,
        st.bulkDataAllocated = false → O < B → S ≤ B → O + S ≤ B →
        ∃ st2 evs, stream_in st O S B true io = some (st2, evs) ∧
          st2.bulkDataAllocated = true ∧ SEvent.bulkDataAllocatedEv ∈ evs) ∧
    (∀ st : StreamerState, ∀ O S B : Nat, ∀ io : Bool,
      ∀ st2 : StreamerState, ∀ evs : List SEvent,
        stream_in st O S B false io = some (st2, evs) →
        st2.bulkDataAllocated = st.bulkDataAllocated ∧
        SEvent.bulkDataAllocatedEv ∉ evs) ∧
    (∀ st : StreamerState, ∀ O S B : Nat,
        st.bulkDataAllocated = false → stream_out st O S B true = none) ∧
    (∀ st : StreamerState, ∀ O S B : Nat,
        st.bulkDataAllocated = true → O < B → S ≤ B → O + S ≤ B →
        ∃ st2 evs, stream_out st O S B true = some (st2, evs) ∧
          st2.bulkDataAllocated = false ∧ SEvent.bulkDataDeallocated ∈ evs) ∧
    (∀ st : StreamerState, ∀ O S B O2 S2 B2 : Nat,
      ∀ st2 : StreamerState, ∀ evs : List SEvent,
        stream_out st O S B true = some (st2, evs) →
        stream_out st2 O2 S2 B2 true = none) ∧
    (∀ st : StreamerState, get_bulk_data st = none ↔ st.bulkDataAllocated = false) := by
  have hdealloc : ∀ st : StreamerState, ∀ O S B : Nat,
      ∀ st2 : StreamerState, ∀ evs : List SEvent,
      stream_out st O S B true = some (st2, evs) →
      st2.bulkDataAllocated = false := by
    rintro ⟨ba, pe⟩ O S B st2 evs hcall
    obtain ⟨h1, h2, h3⟩ := stream_out_some_bounds hcall
    cases ba <;> cases pe <;>
      simp_all [stream_out, waitForStreamingToComplete, h1, h2, h3]
    all_goals obtain ⟨rfl, -⟩ := hcall
    all_goals rfl
  have hnone : ∀ st : StreamerState, ∀ O S B : Nat,
      st.bulkDataAllocated = false → stream_out st O S B true = none := by
    rintro ⟨ba, pe⟩ O S B hba
    simp only at hba
    subst hba
    by_cases h1 : O < B
    · by_cases h2 : S ≤ B
      · by_cases h3 : O + S ≤ B
        · cases pe <;> simp [stream_out, waitForStreamingToComplete, h1, h2, h3]
        · simp [stream_out, h1, h2, h3]
      · simp [stream_out, h1, h2]
    · simp [stream_out, h1]
  refine ⟨?_, ?_, ?_, hnone, ?_, ?_, ?_⟩
  · rintro ⟨ba, pe⟩ O S B io hba
    simp only at hba
    subst hba
    by_cases h1 : O < B
    · by_cases h2 : S ≤ B
      · by_cases h3 : O + S ≤ B
        · cases pe <;> cases io <;>
            simp [stream_in, waitForStreamingToComplete, h1, h2, h3]
        · simp [stream_in, h1, h2, h3]
      · simp [stream_in, h1, h2]
    · simp [stream_in, h1]
  · rintro ⟨ba, pe⟩ O S B io hba h1 h2 h3
    simp only at hba
    subst hba
    cases pe <;> cases io <;>
      simp [stream_in, waitForStreamingToComplete, h1, h2, h3]
    all_goals exact ⟨_, _, ⟨rfl, rfl⟩, rfl, by simp⟩
  · rintro ⟨ba, pe⟩ O S B io st2 evs hcall
    obtain ⟨h1, h2, h3⟩ := stream_in_some_bounds hcall
    cases ba <;> cases pe <;> cases io <;>
      simp_all [stream_in, waitForStreamingToComplete, h1, h2, h3]
    all_goals obtain ⟨rfl, rfl⟩ := hcall
    all_goals simp
  · rintro ⟨ba, pe⟩ O S B hba h1 h2 h3
    simp only at hba
    subst hba
    cases pe <;>
      simp [stream_out, waitForStreamingToComplete, h1, h2, h3]
    all_goals exact ⟨_, _, ⟨rfl, rfl⟩, rfl, by simp⟩
  · intro st O S B O2 S2 B2 st2 evs hcall
    exact hnone st2 O2 S2 B2 (hdealloc st O S B st2 evs hcall)
  · rintro ⟨ba, pe⟩
    cases ba <;> simp [get_bulk_data]

/-- Witness for C5: a full allocate-then-free cycle at a concrete request
range, with the fatal double-free and the redundant-allocate preconditions
exercised through the theorem. -/
theorem streamer_alloc_protocol_witness :
    ((StreamerState.mk true false).bulkDataAllocated = true ∧
     (StreamerState.mk false false).bulkDataAllocated = false ∧
     (0 : Nat) < 16 ∧ (4 : Nat) ≤ 16 ∧ (0 : Nat) + 4 ≤ 16) ∧
    (stream_in (StreamerState.mk true false) 0 4 16 true true = none ∧
     (∃ st2 evs, stream_in (StreamerState.mk false false) 0 4 16 true true
        = some (st2, evs) ∧
        st2.bulkDataAllocated = true ∧ SEvent.bulkDataAllocatedEv ∈ evs) ∧
     stream_out (StreamerState.mk false false) 0 4 16 true = none ∧
     (∃ st2 evs, stream_out (StreamerState.mk true false) 0 4 16 true
        = some (st2, evs) ∧
        st2.bulkDataAllocated = false ∧ SEvent.bulkDataDeallocated ∈ evs) ∧
     (get_bulk_data (StreamerState.mk false false) = none ↔
        (StreamerState.mk false false).bulkDataAllocated = false)) :=
  ⟨⟨rfl, rfl, by decide, by decide, by decide⟩,
   streamer_alloc_protocol.1 (StreamerState.mk true false) 0 4 16 true rfl,
   streamer_alloc_protocol.2.1 (StreamerState.mk false false) 0 4 16 true rfl
     (by decide) (by decide) (by decide),
   streamer_alloc_protocol.2.2.2.1 (StreamerState.mk false false) 0 4 16 rfl,
   streamer_alloc_protocol.2.2.2.2.1 (StreamerState.mk true false) 0 4 16 rfl
     (by decide) (by decide) (by decide),
   streamer_alloc_protocol.2.2.2.2.2.2 (StreamerState.mk false false)⟩

/-- C6: for every `stream_in` and `stream_out` call, the bounds preconditions
`offset < total_size`, `size ≤ total_size` and `offset + size ≤ total_size`
(the last computed in 64-bit arithmetic, hence without 32-bit overflow, which
exact `Nat` addition models) hold, or the call fails a fatal `checkf`
assertion (`none`): an out-of-range request is never a recoverable runtime
condition. -/
theorem streamer_bounds_contract (st : StreamerState)
    (Offset Size BulkDataSize : Nat) (ca io cd : Bool)
    (hbad : ¬ (Offset < BulkDataSize ∧ Size ≤ BulkDataSize ∧
               Offset + Size ≤ BulkDataSize)) :
    stream_in st Offset Size BulkDataSize ca io = none ∧
    stream_out st Offset Size BulkDataSize cd = none := by
  constructor
  · by_cases h1 : Offset < BulkDataSize
    · by_cases h2 : Size ≤ BulkDataSize
      · have h3 : ¬ Offset + Size ≤ BulkDataSize := fun h3 => hbad ⟨h1, h2, h3⟩
        simp [stream_in, h1, h2, h3]
      · simp [stream_in, h1, h2]
    · simp [stream_in, h1]
  · by_cases h1 : Offset < BulkDataSize
    · by_cases h2 : Size ≤ BulkDataSize
      · have h3 : ¬ Offset + Size ≤ BulkDataSize := fun h3 => hbad ⟨h1, h2, h3⟩
        simp [stream_out, h1, h2, h3]
      · simp [stream_out, h1, h2]
    · simp [stream_out, h1]

/-- Witness for C6: an out-of-range request (`offset = 20` against a bulk
data size of 16) is fatal for both operations. -/
theorem streamer_bounds_contract_witness :
    (¬ ((20 : Nat) < 16 ∧ (4 : Nat) ≤ 16 ∧ (20 : Nat) + 4 ≤ 16)) ∧
    (stream_in (StreamerState.mk false false) 20 4 16 true true = none ∧
     stream_out (StreamerState.mk false false) 20 4 16 true = none) :=
  ⟨by decide,
   streamer_bounds_contract (StreamerState.mk false false) 20 4 16 true true true
     (by decide)⟩

/-- C8: if the underlying asynchronous range read cannot be started
(`CreateStreamingRequest` returns null, `requestDispatchOk = false`), a
successful `stream_in` invokes the continuation synchronously with failure as
its last event, issues no request, and leaves no request pending (the data
stays non-resident; nothing retries automatically); a subsequent explicit
`stream_in` on the resulting state retries and issues the request. -/
theorem stream_in_dispatch_failure (st : StreamerState)
    (Offset Size BulkDataSize : Nat) (ca : Bool) (st2 : StreamerState)
    (evs : List SEvent)
    (hcall : stream_in st Offset Size BulkDataSize ca false = some (st2, evs)) :
    evs.getLast? = some SEvent.streamInContinuationFailed ∧
    SEvent.streamInRequestIssued ∉ evs ∧
    st2.pendingIORequest = false ∧
    ∃ st3 evs2, stream_in st2 Offset Size BulkDataSize false true
        = some (st3, evs2) ∧
      SEvent.streamInRequestIssued ∈ evs2 ∧ st3.pendingIORequest = true := by
  obtain ⟨h1, h2, h3⟩ := stream_in_some_bounds hcall
  rcases st with ⟨ba, pe⟩
  cases ba <;> cases ca <;> cases pe <;>
    simp_all [stream_in, waitForStreamingToComplete, h1, h2, h3]
  all_goals obtain ⟨rfl, rfl⟩ := hcall
  all_goals simp [stream_in, waitForStreamingToComplete, h1, h2, h3]
  all_goals exact ⟨_, _, ⟨rfl, rfl⟩, by simp, rfl⟩

/-- Witness for C8: a dispatch failure on the first allocating request,
followed by a successful retry. -/
theorem stream_in_dispatch_failure_witness :
    (stream_in (StreamerState.mk false false) 0 4 16 true false
       = some (StreamerState.mk true false,
           [SEvent.bulkDataAllocatedEv, SEvent.streamInContinuationFailed])) ∧
    ([SEvent.bulkDataAllocatedEv, SEvent.streamInContinuationFailed].getLast?
       = some SEvent.streamInContinuationFailed ∧
     SEvent.streamInRequestIssued
       ∉ [SEvent.bulkDataAllocatedEv, SEvent.streamInContinuationFailed] ∧
     (StreamerState.mk true false).pendingIORequest = false ∧
     ∃ st3 evs2, stream_in (StreamerState.mk true false) 0 4 16 false true
        = some (st3, evs2) ∧
       SEvent.streamInRequestIssued ∈ evs2 ∧ st3.pendingIORequest = true) :=
  ⟨by decide,
   stream_in_dispatch_failure (StreamerState.mk false false) 0 4 16 true
     (StreamerState.mk true false)
     [SEvent.bulkDataAllocatedEv, SEvent.streamInContinuationFailed]
     (by decide)⟩

/-- Intermediate allocations of the `PreSave` build pipeline: the per-sequence
database-optimised clip copies and merged database produced by
`acl::build_database`, and the split database halves produced by
`acl::split_compressed_database_bulk_data`. -/
inductive AllocTag
  | clipCopy (i : Nat)
  | mergedDB
  | splitDB
  | splitBulk
deriving DecidableEq

/-- Observable allocation / deallocation / logging events of `PreSave`. -/
inductive PEvent
  | alloc (a : AllocTag)
  | free (a : AllocTag)
  | logError (msg : String)
deriving DecidableEq

def applyAllocEvent (live : List AllocTag) : PEvent → List AllocTag
  | PEvent.alloc a => live ++ [a]
  | PEvent.free a => live.erase a
  | PEvent.logError _ => live

/-- Allocations still live after a trace of pipeline events. -/
def liveAfter (tr : List PEvent) : List AllocTag := tr.foldl applyAllocEvent []

/-- The three cooked artifacts persisted by
`UAnimationCompressionLibraryDatabase`: `CompressedBytes`,
`CookedAnimSequenceMappings` and `StreamableBulkData`. -/
structure CookedArtifacts where
  compressedBytes : List Nat
  cookedAnimSequenceMappings : List Nat
  streamableBulkData : List Nat
deriving DecidableEq

/-- State of the three artifacts after `PreSave` empties them
(`CompressedBytes.Empty(0)`, `CookedAnimSequenceMappings.Empty(0)`,
`StreamableBulkData.RemoveBulkData()`). -/
def clearedArtifacts : CookedArtifacts := ⟨[], [], []⟩

/-- One entry of the database asset's `AnimSequences` list: whether the
sequence's codec still references this database (the mapping is stale
otherwise) and its name hash. -/
structure SeqRef where
  referencesDatabase : Bool
  hash : Nat
deriving DecidableEq

/-- Embedding of `UAnimationCompressionLibraryDatabase::PreSave`. The stale
artifacts are cleared first; outside cooking, or with no sequence still
referencing the database, nothing more happens. Otherwise the external
`acl::build_database` call (one clip copy per cooked sequence plus the merged
database allocated on success; its per-clip output sizes are the payload) and
the external `acl::split_compressed_database_bulk_data` call (split database
and bulk buffer allocated on success; their sizes are the payload) are
modelled by their `acl::error_result` outcomes passed as `Except` values. On
a merge error the error is logged and the build aborts with nothing
allocated; the merged database is always freed right after the split call; on
a split error the clip copies are freed, the error is logged, and the build
aborts; on success the artifacts are filled (buffer layout and sorted mapping
array as in `presaveLayout` / `presaveMappings`) and all intermediates are
freed. -/
def preSave (requiresCookedData : Bool) (seqs : List SeqRef)
    (mergeResult : Except String (List Nat))
    (splitResult : Except String (Nat × Nat)) :
    CookedArtifacts × List PEvent :=
  if requiresCookedData = false then (clearedArtifacts, [])
  else
    let cookedSequences := seqs.filter (fun sq => sq.referencesDatabase)
    if cookedSequences.length = 0 then (clearedArtifacts, [])
    else
      match mergeResult with
      | Except.error msg => (clearedArtifacts, [PEvent.logError msg])
      | Except.ok dbClipSizes =>
          let allocEvents :=
            (List.range cookedSequences.length).map
              (fun i => PEvent.alloc (AllocTag.clipCopy i))
          let freeClipEvents :=
            (List.range cookedSequences.length).map
              (fun i => PEvent.free (AllocTag.clipCopy i))
          match splitResult with
          | Except.error msg =>
              (clearedArtifacts,
               allocEvents ++ [PEvent.alloc AllocTag.mergedDB]
                 ++ [PEvent.free AllocTag.mergedDB]
                 ++ freeClipEvents ++ [PEvent.logError msg])
          | Except.ok (dbSize, bulkSize) =>
              let entries := List.zipWith
                (fun (sq : SeqRef) sz => SeqEntry.mk sq.hash sz)
                cookedSequences dbClipSizes
              (⟨List.replicate
                  (presaveBufferSize dbSize (entries.map SeqEntry.size)) 0,
                presaveMappings dbSize entries,
                List.replicate bulkSize 0⟩,
               allocEvents ++ [PEvent.alloc AllocTag.mergedDB]
                 ++ [PEvent.alloc AllocTag.splitDB, PEvent.alloc AllocTag.splitBulk]
                 ++ [PEvent.free AllocTag.mergedDB]
                 ++ [PEvent.free AllocTag.splitDB, PEvent.free AllocTag.splitBulk]
                 ++ freeClipEvents)

theorem liveAfter_append (tr1 tr2 : List PEvent) :
    liveAfter (tr1 ++ tr2) = tr2.foldl applyAllocEvent (liveAfter tr1) := by
  rw [liveAfter, liveAfter, List.foldl_append]

theorem foldl_alloc_range (n : Nat) :
    ∀ acc : List AllocTag,
      ((List.range n).map (fun i => PEvent.alloc (AllocTag.clipCopy i))).foldl
          applyAllocEvent acc
        = acc ++ (List.range n).map AllocTag.clipCopy := by
  induction n with
  | zero => intro acc; simp
  | succ m ih =>
      intro acc
      rw [List.range_succ]
      simp only [List.map_append, List.foldl_append, ih]
      simp [applyAllocEvent]

theorem foldl_free_self (xs : List AllocTag) :
    (xs.map PEvent.free).foldl applyAllocEvent xs = [] := by
  induction xs with
  | nil => rfl
  | cons a t ih =>
      simp only [List.map_cons, List.foldl_cons, applyAllocEvent,
        List.erase_cons_head]
      exact ih

/-- C7: the build pipeline is atomic on failure. `PreSave` clears
`CompressedBytes`, `CookedAnimSequenceMappings` and `StreamableBulkData`
before building (outside cooking they simply stay cleared), and if the merge
step or the split step returns a non-empty error it logs the error message,
frees every intermediate allocation, and aborts with all three cooked
artifacts still empty — no partial artifact is persisted. -/
theorem presave_atomic_on_failure (seqs : List SeqRef)
    (mergeResult : Except String (List Nat))
    (splitResult : Except String (Nat × Nat)) (msg : String)
    (hfail : mergeResult = Except.error msg ∨
      ((∃ sizes, mergeResult = Except.ok sizes) ∧
        splitResult = Except.error msg)) :
    (∀ mr sr, preSave false seqs mr sr = (clearedArtifacts, [])) ∧
    (preSave true seqs mergeResult splitResult).1 = clearedArtifacts ∧
    liveAfter (preSave true seqs mergeResult splitResult).2 = [] ∧
    ((seqs.filter (fun sq => sq.referencesDatabase)).length ≠ 0 →
      PEvent.logError msg ∈ (preSave true seqs mergeResult splitResult).2) := by
  refine ⟨fun mr sr => rfl, ?_⟩
  by_cases hcook : (seqs.filter (fun sq => sq.referencesDatabase)).length = 0
  · rw [preSave]
    simp only [if_neg (by simp : ¬ (true : Bool) = false), if_pos hcook]
    exact ⟨by trivial, by trivial, fun hne => absurd hcook hne⟩
  · rcases hfail with hmerge | ⟨⟨sizes, hok⟩, hsplit⟩
    · subst hmerge
      rw [preSave]
      simp only [if_neg (by simp : ¬ (true : Bool) = false), if_neg hcook]
      exact ⟨by trivial, by trivial, fun _ => by simp⟩
    · subst hok
      subst hsplit
      rw [preSave]
      simp only [if_neg (by simp : ¬ (true : Bool) = false), if_neg hcook]
      refine ⟨by trivial, ?_, fun _ => by simp⟩
      rw [show ∀ a b c d e : List PEvent, a ++ b ++ c ++ d ++ e
            = (a ++ b ++ c ++ d) ++ e from fun a b c d e => rfl,
        liveAfter_append, liveAfter_append, liveAfter_append, liveAfter_append]
      rw [show liveAfter ((List.range
            (seqs.filter (fun sq => sq.referencesDatabase)).length).map
            (fun i => PEvent.alloc (AllocTag.clipCopy i)))
          = (List.range
              (seqs.filter (fun sq => sq.referencesDatabase)).length).map
              AllocTag.clipCopy from by
        rw [liveAfter, foldl_alloc_range]
        simp]
      simp only [List.foldl_cons, List.foldl_nil, applyAllocEvent]
      rw [List.erase_append_right, List.erase_cons_head, List.append_nil]
      · rw [show (List.range
              (seqs.filter (fun sq => sq.referencesDatabase)).length).map
              (fun i => PEvent.free (AllocTag.clipCopy i))
            = ((List.range
                (seqs.filter (fun sq => sq.referencesDatabase)).length).map
                AllocTag.clipCopy).map PEvent.free from by
          simp [List.map_map]]
        rw [foldl_free_self]
      · simp

/-- Witness for C7: a single referencing sequence with a failing merge step
aborts with all artifacts empty, nothing leaked and the error logged. -/
theorem presave_atomic_on_failure_witness :
    ((Except.error "merge failed" : Except String (List Nat))
        = Except.error "merge failed" ∨
      ((∃ sizes, (Except.error "merge failed" : Except String (List Nat))
          = Except.ok sizes) ∧
        (Except.ok (0, 0) : Except String (Nat × Nat))
          = Except.error "merge failed")) ∧
    ((∀ mr sr, preSave false [SeqRef.mk true 1] mr sr = (clearedArtifacts, [])) ∧
     (preSave true [SeqRef.mk true 1] (Except.error "merge failed")
        (Except.ok (0, 0))).1 = clearedArtifacts ∧
     liveAfter (preSave true [SeqRef.mk true 1] (Except.error "merge failed")
        (Except.ok (0, 0))).2 = [] ∧
     (([SeqRef.mk true 1].filter (fun sq => sq.referencesDatabase)).length ≠ 0 →
       PEvent.logError "merge failed"
         ∈ (preSave true [SeqRef.mk true 1] (Except.error "merge failed")
             (Except.ok (0, 0))).2)) :=
  ⟨Or.inl rfl,
   presave_atomic_on_failure [SeqRef.mk true 1] (Except.error "merge failed")
     (Except.ok (0, 0)) "merge failed" (Or.inl rfl)⟩

/-- Runtime state of the database asset relevant to `BeginDestroy`: the
optional owned streamer (with its own state) and whether `DatabaseContext`
still references the streamer. -/
structure DatabaseAssetRuntime where
  databaseStreamer : Option StreamerState
  contextReferencesStreamer : Bool
deriving DecidableEq

/-- Observable events of `BeginDestroy`, in program order. -/
inductive DestroyEvent
  | waitedForStreaming
  | databaseContextReset
  | streamerFreed
deriving DecidableEq

/-- Embedding of `UAnimationCompressionLibraryDatabase::BeginDestroy`: when a
streamer exists, first wait for any pending I/O request
(`Streamer->WaitForStreamingToComplete()`), then reset the database context
(`DatabaseContext.reset()`, severing its reference to the streamer), then
free the streamer (`delete Streamer`). -/
def beginDestroy (st : DatabaseAssetRuntime) :
    DatabaseAssetRuntime × List DestroyEvent :=
  match st.databaseStreamer with
  | some s =>
      let w := waitForStreamingToComplete s
      (⟨none, false⟩,
       w.2.map (fun _ => DestroyEvent.waitedForStreaming)
         ++ [DestroyEvent.databaseContextReset, DestroyEvent.streamerFreed])
  | none => (st, [])

/-- C9: on destruction of the owning database asset, `BeginDestroy` performs,
in this order: wait for any in-flight streaming request, then reset the
database context, then free the streamer. In the event trace the streamer is
freed last, strictly after the context reset, which is strictly after any
wait-for-completion; so the streamer is never freed while a request is in
flight or while the context still references it, and the resulting state
holds neither a streamer nor a context reference. -/
theorem begin_destroy_ordering (st : DatabaseAssetRuntime) (s : StreamerState)
    (st2 : DatabaseAssetRuntime) (evs : List DestroyEvent)
    (hstr : st.databaseStreamer = some s)
    (hcall : beginDestroy st = (st2, evs)) :
    DestroyEvent.streamerFreed ∈ evs ∧
    DestroyEvent.databaseContextReset ∈ evs ∧
    (s.pendingIORequest = true → DestroyEvent.waitedForStreaming ∈ evs) ∧
    (∀ i j, ∀ hi : i < evs.length, ∀ hj : j < evs.length,
      evs.get ⟨i, hi⟩ = DestroyEvent.waitedForStreaming →
      evs.get ⟨j, hj⟩ = DestroyEvent.databaseContextReset → i < j) ∧
    (∀ i j, ∀ hi : i < evs.length, ∀ hj : j < evs.length,
      evs.get ⟨i, hi⟩ = DestroyEvent.databaseContextReset →
      evs.get ⟨j, hj⟩ = DestroyEvent.streamerFreed → i < j) ∧
    evs.getLast? = some DestroyEvent.streamerFreed ∧
    st2.databaseStreamer = none ∧
    st2.contextReferencesStreamer = false := by
  rcases s with ⟨ba, pe⟩
  cases pe <;>
    simp only [beginDestroy, hstr, waitForStreamingToComplete, if_true,
      if_false, Bool.false_eq_true, List.map_cons, List.map_nil,
      List.nil_append, List.cons_append] at hcall <;>
    obtain ⟨rfl, rfl⟩ := (Prod.mk.injEq _ _ _ _).mp hcall
  · refine ⟨by simp, by simp, by simp, ?_, ?_, by simp, rfl, rfl⟩
    · intro i j hi hj hvi hvj
      have hi2 : i < 2 := by simpa using hi
      have hj2 : j < 2 := by simpa using hj
      interval_cases i <;> interval_cases j <;> simp_all
    · intro i j hi hj hvi hvj
      have hi2 : i < 2 := by simpa using hi
      have hj2 : j < 2 := by simpa using hj
      interval_cases i <;> interval_cases j <;> simp_all
  · refine ⟨by simp, by simp, by simp, ?_, ?_, by simp, rfl, rfl⟩
    · intro i j hi hj hvi hvj
      have hi3 : i < 3 := by simpa using hi
      have hj3 : j < 3 := by simpa using hj
      interval_cases i <;> interval_cases j <;> simp_all
    · intro i j hi hj hvi hvj
      have hi3 : i < 3 := by simpa using hi
      have hj3 : j < 3 := by simpa using hj
      interval_cases i <;> interval_cases j <;> simp_all

/-- Witness for C9: destroying an asset whose streamer has a request in
flight waits, resets the context, then frees the streamer. -/
theorem begin_destroy_ordering_witness :
    ((DatabaseAssetRuntime.mk (some (StreamerState.mk true true)) true).databaseStreamer
        = some (StreamerState.mk true true) ∧
     beginDestroy (DatabaseAssetRuntime.mk (some (StreamerState.mk true true)) true)
        = (DatabaseAssetRuntime.mk none false,
           [DestroyEvent.waitedForStreaming, DestroyEvent.databaseContextReset,
            DestroyEvent.streamerFreed])) ∧
    (DestroyEvent.streamerFreed
        ∈ [DestroyEvent.waitedForStreaming, DestroyEvent.databaseContextReset,
           DestroyEvent.streamerFreed] ∧
     DestroyEvent.databaseContextReset
        ∈ [DestroyEvent.waitedForStreaming, DestroyEvent.databaseContextReset,
           DestroyEvent.streamerFreed] ∧
     ((StreamerState.mk true true).pendingIORequest = true →
       DestroyEvent.waitedForStreaming
         ∈ [DestroyEvent.waitedForStreaming, DestroyEvent.databaseContextReset,
            DestroyEvent.streamerFreed]) ∧
     (∀ i j, ∀ hi : i < ([DestroyEvent.waitedForStreaming,
          DestroyEvent.databaseContextReset,
          DestroyEvent.streamerFreed] : List DestroyEvent).length,
        ∀ hj : j < ([DestroyEvent.waitedForStreaming,
          DestroyEvent.databaseContextReset,
          DestroyEvent.streamerFreed] : List DestroyEvent).length,
        ([DestroyEvent.waitedForStreaming, DestroyEvent.databaseContextReset,
          DestroyEvent.streamerFreed] : List DestroyEvent).get ⟨i, hi⟩
            = DestroyEvent.waitedForStreaming →
        ([DestroyEvent.waitedForStreaming, DestroyEvent.databaseContextReset,
          DestroyEvent.streamerFreed] : List DestroyEvent).get ⟨j, hj⟩
            = DestroyEvent.databaseContextReset → i < j) ∧
     (∀ i j, ∀ hi : i < ([DestroyEvent.waitedForStreaming,
          DestroyEvent.databaseContextReset,
          DestroyEvent.streamerFreed] : List DestroyEvent).length,
        ∀ hj : j < ([DestroyEvent.waitedForStreaming,
          DestroyEvent.databaseContextReset,
          DestroyEvent.streamerFreed] : List DestroyEvent).length,
        ([DestroyEvent.waitedForStreaming, DestroyEvent.databaseContextReset,
          DestroyEvent.streamerFreed] : List DestroyEvent).get ⟨i, hi⟩
            = DestroyEvent.databaseContextReset →
        ([DestroyEvent.waitedForStreaming, DestroyEvent.databaseContextReset,
          DestroyEvent.streamerFreed] : List DestroyEvent).get ⟨j, hj⟩
            = DestroyEvent.streamerFreed → i < j) ∧
     ([DestroyEvent.waitedForStreaming, DestroyEvent.databaseContextReset,
       DestroyEvent.streamerFreed] : List DestroyEvent).getLast?
        = some DestroyEvent.streamerFreed ∧
     (DatabaseAssetRuntime.mk none false).databaseStreamer = none ∧
     (DatabaseAssetRuntime.mk none false).contextReferencesStreamer = false) :=
  ⟨⟨rfl, by decide⟩,
   begin_destroy_ordering
     (DatabaseAssetRuntime.mk (some (StreamerState.mk true true)) true)
     (StreamerState.mk true true) (DatabaseAssetRuntime.mk none false)
     [DestroyEvent.waitedForStreaming, DestroyEvent.databaseContextReset,
      DestroyEvent.streamerFreed] rfl (by decide)⟩

/-- Embedding of the `ACLDBPreviewState` enum of
`AnimationCompressionLibraryDatabase.h`. -/
inductive ACLDBPreviewState
  | NoPreview
  | HighQuality
  | LowQuality
deriving DecidableEq

/-- Editor-relevant state of the database asset: whether the ACL database
context is in use (`DatabaseContext.is_initialized()`, i.e. the data was
cooked) and the preview tier. -/
structure EditorAssetState where
  contextIsUsed : Bool
  previewState : ACLDBPreviewState
deriving DecidableEq

/-- A deferred task queued on the core ticker. -/
inductive TickerTask
  | streamOutDeferred
deriving DecidableEq

/-- Embedding of the editor-only `switch (PreviewState)` of
`StreamDatabaseIn`: `None` and `LowQuality` stream the high-quality data in,
`HighQuality` has nothing to do (the C++ `default:` label shares the `None`
branch and the enum has exactly these three values). -/
def streamDatabaseInPreview (PreviewState : ACLDBPreviewState) : ACLDBPreviewState :=
  match PreviewState with
  | ACLDBPreviewState.NoPreview => ACLDBPreviewState.HighQuality
  | ACLDBPreviewState.HighQuality => ACLDBPreviewState.HighQuality
  | ACLDBPreviewState.LowQuality => ACLDBPreviewState.HighQuality

/-- Embedding of the editor-only `switch (PreviewState)` inside the deferred
function queued by `StreamDatabaseOut`: `None` and `HighQuality` stream the
high-quality data out, `LowQuality` has nothing to do. -/
def streamOutDeferredPreview (PreviewState : ACLDBPreviewState) : ACLDBPreviewState :=
  match PreviewState with
  | ACLDBPreviewState.NoPreview => ACLDBPreviewState.LowQuality
  | ACLDBPreviewState.HighQuality => ACLDBPreviewState.LowQuality
  | ACLDBPreviewState.LowQuality => ACLDBPreviewState.LowQuality

/-- Embedding of `UAnimationCompressionLibraryDatabase::StreamDatabaseIn`
restricted to the state it mutates: with an in-use (cooked) context it only
issues `DatabaseContext.stream_in()` and logs, leaving `PreviewState` alone;
otherwise it updates the preview tier. -/
def streamDatabaseIn (st : EditorAssetState) : EditorAssetState :=
  if st.contextIsUsed then st
  else { st with previewState := streamDatabaseInPreview st.previewState }

/-- Embedding of `UAnimationCompressionLibraryDatabase::StreamDatabaseOut`:
the whole body is wrapped in a `TFunction` handed to
`FTicker::GetCoreTicker().AddTicker`, so the call itself only queues the
deferred task and mutates nothing. -/
def streamDatabaseOut (st : EditorAssetState) : EditorAssetState × List TickerTask :=
  (st, [TickerTask.streamOutDeferred])

/-- Embedding of the deferred function queued by `StreamDatabaseOut` once the
ticker runs it: with an in-use context it only issues
`DatabaseContext.stream_out()` and logs; otherwise it updates the preview
tier. -/
def runStreamOutDeferred (st : EditorAssetState) : EditorAssetState :=
  if st.contextIsUsed then st
  else { st with previewState := streamOutDeferredPreview st.previewState }

/-- C10: in editor builds, when the database context is not in use,
`StreamDatabaseIn` leaves `PreviewState = HighQuality` for every prior value
and is idempotent; the deferred function queued by `StreamDatabaseOut` leaves
`PreviewState = LowQuality` for every prior value; and `StreamDatabaseOut`
itself never mutates state inline — its only effect is queueing the deferred
ticker callback. -/
theorem stream_database_preview_state (st : EditorAssetState)
    (hctx : st.contextIsUsed = false) :
    (streamDatabaseIn st).previewState = ACLDBPreviewState.HighQuality ∧
    streamDatabaseIn (streamDatabaseIn st) = streamDatabaseIn st ∧
    (runStreamOutDeferred st).previewState = ACLDBPreviewState.LowQuality ∧
    (streamDatabaseOut st).1 = st ∧
    (streamDatabaseOut st).2 = [TickerTask.streamOutDeferred] := by
  rcases st with ⟨used, ps⟩
  simp only at hctx
  subst hctx
  cases ps <;>
    simp [streamDatabaseIn, runStreamOutDeferred, streamDatabaseOut,
      streamDatabaseInPreview, streamOutDeferredPreview]

/-- Witness for C10 at the concrete prior state `LowQuality` with the context
not in use. -/
theorem stream_database_preview_state_witness :
    (EditorAssetState.mk false ACLDBPreviewState.LowQuality).contextIsUsed = false ∧
    ((streamDatabaseIn
        (EditorAssetState.mk false ACLDBPreviewState.LowQuality)).previewState
        = ACLDBPreviewState.HighQuality ∧
     streamDatabaseIn (streamDatabaseIn
        (EditorAssetState.mk false ACLDBPreviewState.LowQuality))
        = streamDatabaseIn (EditorAssetState.mk false ACLDBPreviewState.LowQuality) ∧
     (runStreamOutDeferred
        (EditorAssetState.mk false ACLDBPreviewState.LowQuality)).previewState
        = ACLDBPreviewState.LowQuality ∧
     (streamDatabaseOut (EditorAssetState.mk false ACLDBPreviewState.LowQuality)).1
        = EditorAssetState.mk false ACLDBPreviewState.LowQuality ∧
     (streamDatabaseOut (EditorAssetState.mk false ACLDBPreviewState.LowQuality)).2
        = [TickerTask.streamOutDeferred]) :=
  ⟨rfl,
   stream_database_preview_state
     (EditorAssetState.mk false ACLDBPreviewState.LowQuality) rfl⟩

end ACLPluginProof
